import Mathlib

/-!
Verification development for the `scanterog/crawler` repository (Go).

The Go source is shallowly embedded as executable Lean definitions:

* `crawler/utils.go` : `strToURL`, `strToAbsoluteURL`, `isExternalURL`,
  `isRelativeURL`, `isMediaURL` are translated directly.  The Go standard
  library's `net/url.Parse` and `URL.String`, which `utils.go` calls, are
  modelled char-for-char on the subspace relevant to this program
  (scheme/authority/path/query/fragment; userinfo, percent-escaping,
  control-byte rejection and the `OmitHost` flag of `url.Parse` are modelled
  where they matter and documented where they are out of scope).
* the crawler pipeline of `crawler.go` (`Run`, `validate`,
  `workQueueDoneChecker`, `workQueueAppender`, `siteMapBuilder`,
  `startWorker`, `scrape`, `getNewSites`) is embedded as an executable
  interleaving machine: one atomic action per blocking channel operation of
  each goroutine, with Go channel semantics (buffered capacities, rendezvous
  on the unbuffered delta channel, panic on closing a closed channel and on
  sending to a closed channel).  The HTTP fetch together with `getLinks`
  (the goquery link extractor) is the external collaborator and is a
  parameter `fetch : String -> Option (List String)` returning the extracted
  href list on success.
-/

/-- Decidable equality for `Except`, used to evaluate the embedded
functions on concrete inputs. -/
instance {ε α : Type} [DecidableEq ε] [DecidableEq α] : DecidableEq (Except ε α) := fun x y =>
  match x, y with
  | .ok a, .ok b =>
    if h : a = b then isTrue (by rw [h]) else isFalse (by simp [h])
  | .error a, .error b =>
    if h : a = b then isTrue (by rw [h]) else isFalse (by simp [h])
  | .ok _, .error _ => isFalse (by simp)
  | .error _, .ok _ => isFalse (by simp)

/-! ## Go string helpers -/

/-- Model of Go `strings.TrimPrefix`: drop `p` from the front of `s`
when `s` starts with `p`, otherwise return `s` unchanged. -/
def goTrimPre (s p : String) : String :=
  if p.data.isPrefixOf s.data then ⟨s.data.drop p.data.length⟩ else s

/-- Model of Go `strings.TrimSuffix`: drop `p` from the end of `s`
when `s` ends with `p`, otherwise return `s` unchanged. -/
def goTrimSuf (s p : String) : String :=
  if p.data.isSuffixOf s.data then ⟨s.data.take (s.data.length - p.data.length)⟩ else s

/-- Model of Go `strings.HasSuffix` on `url.URL.Path`, as used by the
`isMediaURL` regular expression match (anchored at end of string). -/
def strHasSuf (s p : String) : Bool :=
  p.data.isSuffixOf s.data

/-- Split a char list at the first occurrence of `c` : returns the part
before and the part after (Go `strings.Cut`).  When `c` does not occur the
second component is `[]` and the first is the whole list. -/
def cutAt (c : Char) : List Char → List Char × List Char
  | [] => ([], [])
  | d :: rest =>
    if d = c then ([], rest)
    else
      let (b, a) := cutAt c rest
      (d :: b, a)

/-! ## Model of `net/url.URL` and `net/url.Parse`

`GoURL` carries the `url.URL` fields this program reads or writes:
`Scheme`, `Opaque`, `Host`, `Path`, `RawQuery`, `Fragment`.  `User`,
`OmitHost`, `ForceQuery` and percent-escaping are not carried: no URL
handled by this crawler's pipeline sets them (the seed is required to be
absolute, and every child URL either is absolute or inherits its parent's
scheme and host before being printed). -/

structure GoURL where
  scheme : String
  opaq : String
  host : String
  path : String
  query : String
  fragment : String
deriving DecidableEq, Repr

/-- One step of Go `net/url.getScheme`: scan for `scheme:`.  Returns
`none` on the "missing protocol scheme" error (`:` first), otherwise the
(lowercased) scheme and the rest, with an empty scheme when the string does
not start with a well-formed `scheme:`. -/
def getSchemeAux (orig : List Char) : List Char → List Char → Option (List Char × List Char)
  | _, [] => some ([], orig)
  | acc, c :: rest =>
    if c.isAlpha then getSchemeAux orig (acc ++ [c]) rest
    else if c.isDigit ∨ c = '+' ∨ c = '-' ∨ c = '.' then
      if acc = [] then some ([], orig) else getSchemeAux orig (acc ++ [c]) rest
    else if c = ':' then
      if acc = [] then none else some (acc.map Char.toLower, rest)
    else some ([], orig)

/-- Go `net/url.getScheme`. -/
def getScheme (l : List Char) : Option (List Char × List Char) :=
  getSchemeAux l [] l

/-- Does the first `/`-separated segment of `l` contain a colon?
(Go `parse` rejects a scheme-less URL whose first path segment contains
`:`.) -/
def colonInFirstSeg (l : List Char) : Bool :=
  (l.takeWhile (· ≠ '/')).contains ':'

/-- Model of Go `net/url.Parse` (with `viaRequest = false`) on the field
subspace of `GoURL`.  Follows the source structure of `url.parse`:
fragment cut, scheme scan, query cut, opaque / authority / path cases.
The control-byte pre-check and percent-unescaping of `setPath` are not
modelled (no crawler input contains control bytes or escapes). -/
def urlParse (s : String) : Option GoURL :=
  if s = "*" then some ⟨"", "", "", "*", "", ""⟩
  else
    let (p, frag) := cutAt '#' s.data
    match getScheme p with
    | none => none
    | some (sch, rest0) =>
      let (rest, query) := cutAt '?' rest0
      if ¬ (['/'].isPrefixOf rest) ∧ sch ≠ [] then
        some ⟨⟨sch⟩, ⟨rest⟩, "", "", ⟨query⟩, ⟨frag⟩⟩
      else if ¬ (['/'].isPrefixOf rest) ∧ sch = [] ∧ colonInFirstSeg rest then
        none
      else if (sch ≠ [] ∨ ¬ (['/', '/', '/'].isPrefixOf rest)) ∧ (['/', '/'].isPrefixOf rest) then
        let auth := (rest.drop 2).takeWhile (· ≠ '/')
        let rest' := (rest.drop 2).dropWhile (· ≠ '/')
        some ⟨⟨sch⟩, "", ⟨auth⟩, ⟨rest'⟩, ⟨query⟩, ⟨frag⟩⟩
      else
        some ⟨⟨sch⟩, "", "", ⟨rest⟩, ⟨query⟩, ⟨frag⟩⟩

/-- Model of Go `url.URL.String()` on the `GoURL` field subspace, following
the buffer-building order of the source. -/
def GoURL.str (u : GoURL) : String :=
  let pre := if u.scheme ≠ "" then u.scheme ++ ":" else ""
  let tail := (if u.query ≠ "" then "?" ++ u.query else "") ++
    (if u.fragment ≠ "" then "#" ++ u.fragment else "")
  if u.opaq ≠ "" then pre ++ u.opaq ++ tail
  else
    let auth :=
      if (u.scheme ≠ "" ∨ u.host ≠ "") ∧ (u.host ≠ "" ∨ u.path ≠ "") then "//" ++ u.host
      else ""
    let slash := if u.path ≠ "" ∧ ¬ (['/'].isPrefixOf u.path.data) ∧ u.host ≠ "" then "/" else ""
    let dot :=
      if pre = "" ∧ auth = "" ∧ slash = "" ∧ colonInFirstSeg u.path.data then "./" else ""
    pre ++ auth ++ slash ++ dot ++ u.path ++ tail

/-! ## `crawler/utils.go` -/

/-- The named errors of `crawler.go` relevant to URL parsing
(`ErrInvalidURL`, `ErrInvalidAbsoluteURL`, `ErrInvalidURLScheme`). -/
inductive URLErr
  | invalidURL
  | invalidAbsoluteURL
  | invalidURLScheme
deriving DecidableEq, Repr

/-- `utils.go strToURL`: parse, reject non-`http(s)` nonempty schemes,
clear the fragment, trim one trailing slash from the path, and normalize a
`"."` path to the empty path. -/
def strToURL (s : String) : Except URLErr GoURL :=
  match urlParse s with
  | none => .error .invalidURL
  | some u =>
    if u.scheme ≠ "" ∧ u.scheme ≠ "http" ∧ u.scheme ≠ "https" then .error .invalidURLScheme
    else
      let p := goTrimSuf u.path "/"
      let p := if p = "." then "" else p
      .ok { u with fragment := "", path := p }

/-- `utils.go strToAbsoluteURL`: `strToURL`, additionally requiring a
nonempty scheme and host. -/
def strToAbsoluteURL (s : String) : Except URLErr GoURL :=
  match strToURL s with
  | .error e => .error e
  | .ok u => if u.scheme = "" ∨ u.host = "" then .error .invalidAbsoluteURL else .ok u

/-- `crawler.go webSite`: a URL plus the URL of the page that linked to it
(`none` for the seed). -/
structure WebSite where
  url : GoURL
  parent : Option GoURL
deriving DecidableEq, Repr

/-- `utils.go isExternalURL`: has a parent and a different host. -/
def isExternalURL (s : WebSite) : Bool :=
  match s.parent with
  | none => false
  | some p => s.url.host ≠ p.host

/-- `utils.go isRelativeURL`: empty scheme or empty host. -/
def isRelativeURL (u : GoURL) : Bool :=
  u.scheme = "" ∨ u.host = ""

/-- The extension alternatives of the `utils.go isMediaURL` regular
expression. -/
def mediaExts : List String := ["jpg", "jpeg", "png", "svg", "gif", "pdf", "csv"]

/-- `utils.go isMediaURL`: the path matches `\.(jpg|jpeg|png|svg|gif|pdf|csv)$`. -/
def isMediaURL (u : GoURL) : Bool :=
  mediaExts.any (fun e => strHasSuf u.path ("." ++ e))

/-- The canonical-key expression of `workQueueAppender` (crawler.go line
148): `strings.TrimPrefix(newSite.URL.String(), newSite.URL.Scheme)`. -/
def siteKey (u : GoURL) : String :=
  goTrimPre u.str u.scheme

/-! ## `crawler.go getNewSites` -/

/-- The resolution step of `getNewSites` for one raw href: parse with
`strToURL` (`none` on failure), then, when relative, inherit the missing
scheme and host from the current page. -/
def resolveLink (parent : GoURL) (link : String) : Option GoURL :=
  match strToURL link with
  | .error _ => none
  | .ok u =>
    if isRelativeURL u then
      let u := if u.scheme = "" then { u with scheme := parent.scheme } else u
      let u := if u.host = "" then { u with host := parent.host } else u
      some u
    else some u

/-- The accumulator loop of `getNewSites`: `seen` is the `urlSet` map keyed
by the resolved URL's string form; first occurrence wins, insertion order
is preserved, unparseable hrefs are skipped. -/
def getNewSitesAux (parent : GoURL) (seen : List String) : List String → List WebSite
  | [] => []
  | link :: rest =>
    match resolveLink parent link with
    | none => getNewSitesAux parent seen rest
    | some u =>
      if seen.contains u.str then getNewSitesAux parent seen rest
      else ⟨u, some parent⟩ :: getNewSitesAux parent (u.str :: seen) rest

/-- `crawler.go getNewSites` with the extracted href list supplied by the
link-extractor collaborator. -/
def getNewSites (s : WebSite) (links : List String) : List WebSite :=
  getNewSitesAux s.url [] links

/-! ## `crawler.go validate` and the start of `Run`

`os.Create` (the output-sink collaborator) is abstracted by a predicate
`createOK : String → Bool` saying whether creating/truncating the named
file succeeds.  `os.Stdout.Name()` is the literal `"/dev/stdout"`. -/

/-- The configuration fields of the `Crawler` struct that `validate`
reads, with the `io.Writer` field abstracted to its presence. -/
structure CrawlerCfg where
  seedURL : String
  numWorkers : Int
  httpClientTimeoutSec : Int
  siteMapOutputFile : String
  hasWriter : Bool
deriving DecidableEq, Repr

/-- The distinct error outcomes of `validate`: the three URL errors from
`strToAbsoluteURL`, `ErrInvalidNumWorkers`, `ErrInvalidHTTPClientTimeout`,
and the wrapped file-creation error. -/
inductive CfgErr
  | invalidURL
  | invalidAbsoluteURL
  | invalidURLScheme
  | invalidNumWorkers
  | invalidHTTPClientTimeout
  | createFileFailed
deriving DecidableEq, Repr

/-- Embed a `strToAbsoluteURL` error into the `validate` error type. -/
def URLErr.toCfgErr : URLErr → CfgErr
  | .invalidURL => .invalidURL
  | .invalidAbsoluteURL => .invalidAbsoluteURL
  | .invalidURLScheme => .invalidURLScheme

/-- `crawler.go validate`: checks in source order (seed URL, worker count,
timeout, output file defaulting, file creation when no writer is given);
on success returns the updated configuration. -/
def validate (createOK : String → Bool) (c : CrawlerCfg) : Except CfgErr CrawlerCfg :=
  match strToAbsoluteURL c.seedURL with
  | .error e => .error e.toCfgErr
  | .ok _ =>
    if c.numWorkers ≤ 0 then .error .invalidNumWorkers
    else if c.httpClientTimeoutSec < 0 then .error .invalidHTTPClientTimeout
    else
      let c := if c.siteMapOutputFile = "" then { c with siteMapOutputFile := "/dev/stdout" } else c
      if c.hasWriter then .ok c
      else if createOK c.siteMapOutputFile then .ok { c with hasWriter := true }
      else .error .createFileFailed

/-- Spec-side construction for the per-page child list (§4.4 of the spec):
keep the distinct resolved URLs, first occurrence winning and insertion
order preserved, keyed by the resolved URL's full string form. -/
def dedupFirstBy (seen : List String) : List GoURL → List GoURL
  | [] => []
  | u :: rest =>
    if seen.contains u.str then dedupFirstBy seen rest
    else u :: dedupFirstBy (u.str :: seen) rest

/-! ## The concurrent pipeline of `Run` as an interleaving machine

Each constructor of `Act` is one atomic step of one goroutine, placed at
the goroutine's blocking channel operations, with Go channel semantics:

* `workQueueDelta` is unbuffered; a send is modelled as the rendezvous in
  which `workQueueDoneChecker` receives it (`seedDelta`, `appDelta`,
  `workerN`, `workerRetire`), applying the delta and closing `workQueue`
  on a zero transition (`applyDelta`); closing an already-closed channel
  is a Go panic, modelled by the absorbing `crashed` flag.
* `siteFilterQueue`, `workQueue`, `resultQueue` are buffered with capacity
  `2 * NumWorkers`; a send is enabled only below capacity, and a send on a
  closed channel is a panic.
* `siteMapDone` is unbuffered: `mainReturn` is the rendezvous of the
  builder's final send with `Run`'s receive.

`fetchLog` and `scrapeLog` are event histories (instrumentation only, no
transition reads them): `fetchLog` records the canonical key of every
fetch attempt at the moment a worker dequeues a site, `scrapeLog` records
every successful scrape with its child list. -/

/-- The fetcher + link-extractor collaborators: for a URL string, `some
links` when the GET succeeds with status < 400 and `getLinks` succeeds on
the body, `none` otherwise. -/
structure Env where
  fetch : String → Option (List String)

/-- The validated inputs the pipeline machine needs: the worker count and
the parsed seed URL. -/
structure Cfg where
  numWorkers : Nat
  seed : GoURL

/-- `workQueueCapacity = NumWorkers * 2` (crawler.go `init`). -/
def Cfg.cap (cfg : Cfg) : Nat := cfg.numWorkers * 2

/-- Program counter of the seed goroutine (crawler.go lines 72-76). -/
inductive SeedStatus
  | start
  | sendDelta
  | finished
deriving DecidableEq, Repr

/-- Program counter of `Run`'s own goroutine after spawning: `wg.Wait()`,
`close(siteFilterQueue)`, `close(resultQueue)`, `<-siteMapDone`, return. -/
inductive MainStatus
  | waitWorkers
  | closeResult
  | waitDone
  | returned
deriving DecidableEq, Repr

/-- Program counter of `siteMapBuilder`. -/
inductive BuilderStatus
  | running
  | doneReady
  | finished
deriving DecidableEq, Repr

/-- Program counter of `workQueueAppender`: between channel operations it
is either waiting on `siteFilterQueue`, blocked sending a `-1` delta, or
blocked sending an admitted site to `workQueue`. -/
inductive AppStatus
  | waiting
  | sendRetireDelta
  | sendWork (site : WebSite)
  | exited
deriving DecidableEq, Repr

/-- Program counter of one worker (`startWorker`): idle at the `range`
over `workQueue`; after a successful scrape with a nonempty child list,
blocked sending `+N`; then blocked sending the result; then blocked
sending its own `-1`. -/
inductive WStatus
  | idle
  | sendN (site : WebSite) (children : List WebSite)
  | sendResult (site : WebSite) (children : List WebSite)
  | sendRetire
  | exited
deriving DecidableEq, Repr

/-- The whole pipeline state. -/
structure St where
  seedSt : SeedStatus
  mainSt : MainStatus
  builderSt : BuilderStatus
  appSt : AppStatus
  workers : List WStatus
  forwarders : List (List WebSite)
  filterQ : List WebSite
  filterClosed : Bool
  workQ : List WebSite
  workClosed : Bool
  resultQ : List (WebSite × List WebSite)
  resultClosed : Bool
  counter : Int
  visited : List String
  output : List String
  crashed : Bool
  fetchLog : List String
  scrapeLog : List (WebSite × List WebSite)
deriving DecidableEq, Repr

/-- The body of `workQueueDoneChecker` for one received delta:
`workQueueSize += delta; if workQueueSize == 0 { close(c.workQueue) }`.
Closing the already-closed `workQueue` is a Go panic (`crashed`). -/
def applyDelta (s : St) (d : Int) : St :=
  let c' := s.counter + d
  if c' = 0 then
    if s.workClosed then { s with counter := c', crashed := true }
    else { s with counter := c', workClosed := true }
  else { s with counter := c' }

/-- The classification of one candidate by `workQueueAppender`
(crawler.go lines 141-155), up to its next blocking channel operation:
external or media, or an already-visited canonical key, puts the appender
at the `-1` delta send; a first-seen internal site is inserted into
`visitedSites` and the appender moves to the `workQueue` send. -/
def appClassify (visited : List String) (w : WebSite) : AppStatus × List String :=
  if isExternalURL w ∨ isMediaURL w.url then (.sendRetireDelta, visited)
  else
    let key := siteKey w.url
    if visited.contains key then (.sendRetireDelta, visited)
    else (.sendWork w, key :: visited)

/-- One atomic step of one goroutine.  `none` means the action is not
enabled (the goroutine is blocked, or not at that program point). -/
inductive Act
  | seedSend
  | seedDelta
  | appTake
  | appDelta
  | appPush
  | appExit
  | workerTake (i : Nat)
  | workerN (i : Nat)
  | workerResult (i : Nat)
  | workerRetire (i : Nat)
  | workerExit (i : Nat)
  | fwdSend (j : Nat)
  | builderTake
  | builderDone
  | mainCloseFilter
  | mainCloseResult
  | mainReturn
deriving DecidableEq, Repr

/-- The sitemap line for one parent→child edge:
`fmt.Sprintf("%v -> %v\n", r.SourceSite.URL.String(), s.URL.String())`. -/
def edgeLine (src child : WebSite) : String :=
  src.url.str ++ " -> " ++ child.url.str ++ "\n"

/-- The lines `siteMapBuilder` writes for one result. -/
def resultLines (r : WebSite × List WebSite) : List String :=
  r.2.map (edgeLine r.1)

/-- The transition function of the pipeline machine. -/
def applyAct (env : Env) (cfg : Cfg) (s : St) (a : Act) : Option St :=
  if s.crashed then none
  else
    match a with
    | .seedSend =>
      match s.seedSt with
      | .start =>
        if s.filterClosed then some { s with crashed := true }
        else if s.filterQ.length < cfg.cap then
          some { s with filterQ := s.filterQ ++ [⟨cfg.seed, none⟩], seedSt := .sendDelta }
        else none
      | _ => none
    | .seedDelta =>
      match s.seedSt with
      | .sendDelta => some (applyDelta { s with seedSt := .finished } 1)
      | _ => none
    | .appTake =>
      match s.appSt, s.filterQ with
      | .waiting, w :: rest =>
        let (st', visited') := appClassify s.visited w
        some { s with filterQ := rest, appSt := st', visited := visited' }
      | _, _ => none
    | .appDelta =>
      match s.appSt with
      | .sendRetireDelta => some (applyDelta { s with appSt := .waiting } (-1))
      | _ => none
    | .appPush =>
      match s.appSt with
      | .sendWork site =>
        if s.workClosed then some { s with crashed := true }
        else if s.workQ.length < cfg.cap then
          some { s with workQ := s.workQ ++ [site], appSt := .waiting }
        else none
      | _ => none
    | .appExit =>
      match s.appSt, s.filterClosed, s.filterQ with
      | .waiting, true, [] => some { s with appSt := .exited }
      | _, _, _ => none
    | .workerTake i =>
      match s.workers.get? i, s.workQ with
      | some .idle, site :: rest =>
        match env.fetch site.url.str with
        | none =>
          some { s with workQ := rest, workers := s.workers.set i .sendRetire,
                        fetchLog := s.fetchLog ++ [siteKey site.url] }
        | some links =>
          let children := getNewSites site links
          some { s with workQ := rest,
                        workers := s.workers.set i
                          (if children.length ≠ 0 then .sendN site children
                           else .sendResult site children),
                        fetchLog := s.fetchLog ++ [siteKey site.url],
                        scrapeLog := s.scrapeLog ++ [(site, children)] }
      | _, _ => none
    | .workerN i =>
      match s.workers.get? i with
      | some (.sendN site ch) =>
        some (applyDelta { s with workers := s.workers.set i (.sendResult site ch) }
          (ch.length : Int))
      | _ => none
    | .workerResult i =>
      match s.workers.get? i with
      | some (.sendResult site ch) =>
        if s.resultClosed then some { s with crashed := true }
        else if s.resultQ.length < cfg.cap then
          some { s with resultQ := s.resultQ ++ [(site, ch)],
                        workers := s.workers.set i .sendRetire,
                        forwarders := s.forwarders ++ [ch] }
        else none
      | _ => none
    | .workerRetire i =>
      match s.workers.get? i with
      | some .sendRetire => some (applyDelta { s with workers := s.workers.set i .idle } (-1))
      | _ => none
    | .workerExit i =>
      match s.workers.get? i, s.workClosed, s.workQ with
      | some .idle, true, [] => some { s with workers := s.workers.set i .exited }
      | _, _, _ => none
    | .fwdSend j =>
      match s.forwarders.get? j with
      | some (c :: restCh) =>
        if s.filterClosed then some { s with crashed := true }
        else if s.filterQ.length < cfg.cap then
          some { s with filterQ := s.filterQ ++ [c], forwarders := s.forwarders.set j restCh }
        else none
      | _ => none
    | .builderTake =>
      match s.builderSt, s.resultQ with
      | .running, r :: rest =>
        some { s with resultQ := rest, output := s.output ++ resultLines r }
      | _, _ => none
    | .builderDone =>
      match s.builderSt, s.resultClosed, s.resultQ with
      | .running, true, [] => some { s with builderSt := .doneReady }
      | _, _, _ => none
    | .mainCloseFilter =>
      match s.mainSt with
      | .waitWorkers =>
        if s.workers.all (· = .exited) then
          some { s with filterClosed := true, mainSt := .closeResult }
        else none
      | _ => none
    | .mainCloseResult =>
      match s.mainSt with
      | .closeResult => some { s with resultClosed := true, mainSt := .waitDone }
      | _ => none
    | .mainReturn =>
      match s.mainSt, s.builderSt with
      | .waitDone, .doneReady => some { s with mainSt := .returned, builderSt := .finished }
      | _, _ => none

/-- The state right after `Run` finished `validate`, `init` and spawned
every goroutine, before any of them has performed a channel operation. -/
def initSt (cfg : Cfg) : St where
  seedSt := .start
  mainSt := .waitWorkers
  builderSt := .running
  appSt := .waiting
  workers := List.replicate cfg.numWorkers .idle
  forwarders := []
  filterQ := []
  filterClosed := false
  workQ := []
  workClosed := false
  resultQ := []
  resultClosed := false
  counter := 0
  visited := []
  output := []
  crashed := false
  fetchLog := []
  scrapeLog := []

/-- Execute a schedule (a list of actions); `none` when some action in the
list is not enabled at its turn. -/
def runActs (env : Env) (cfg : Cfg) : St → List Act → Option St
  | s, [] => some s
  | s, a :: rest =>
    match applyAct env cfg s a with
    | none => none
    | some s' => runActs env cfg s' rest

/-- Reachability of a pipeline state under some schedule. -/
def Reach (env : Env) (cfg : Cfg) (s : St) : Prop :=
  ∃ acts, runActs env cfg (initSt cfg) acts = some s

/-- The prologue of `crawler.go Run`: `validate`, then `startOnce.Do(init)`
and the goroutine spawns.  A validation error is returned before `init`
runs: no goroutine is started, no channel exists, no network activity
occurs — represented by returning the error with no pipeline state.  On
success the pipeline starts at `initSt` (line 73 re-parses the seed and
discards the error, which is unreachable after a successful `validate`;
the junk URL mirrors the nil pointer Go would produce there). -/
def crawlerRun (createOK : String → Bool) (c : CrawlerCfg) : Except CfgErr St :=
  match validate createOK c with
  | .error e => .error e
  | .ok c' =>
    match strToAbsoluteURL c'.seedURL with
    | .ok u => .ok (initSt ⟨c'.numWorkers.toNat, u⟩)
    | .error _ => .ok (initSt ⟨c'.numWorkers.toNat, ⟨"", "", "", "", "", ""⟩⟩)

/-! ## Concrete collaborators, schedules and invariants

`envRace`/`cfgOne` : one worker, seed `http://h` whose page links to two
external pages.  The reachable internal-page graph is finite (one page).
`envRun` : seed `http://h` linking to one internal page `/about` (which
has no links), one external page, one media file, one unparseable href and
one per-page duplicate. -/

def envRace : Env :=
  ⟨fun u => if u = "http://h" then some ["http://x/a", "http://x/b"] else none⟩

def cfgOne : Cfg := ⟨1, ⟨"http", "", "h", "", "", ""⟩⟩

/-- A legal schedule in which the seed goroutine is preempted between its
`siteFilterQueue` send (line 74) and its `+1` delta send (line 75), so
every other delta is received first: the counter ends at `-1` with the
work queue already closed. -/
def traceNeg : List Act :=
  [.seedSend, .appTake, .appPush, .workerTake 0, .workerN 0, .workerResult 0,
   .fwdSend 0, .fwdSend 0, .appTake, .appDelta, .appTake, .appDelta, .workerRetire 0]

/-- `traceNeg` followed by the late delivery of the seed's `+1`: the
counter transitions to zero a second time and `workQueueDoneChecker`
closes the already-closed `workQueue` — a Go runtime panic. -/
def traceCrash : List Act := traceNeg ++ [.seedDelta]

/-- The same panicking schedule, spelled out, for the termination claim:
an unrecovered panic kills the Go process, so `Run` never returns. -/
def traceHang : List Act :=
  [.seedSend, .appTake, .appPush, .workerTake 0, .workerN 0, .workerResult 0,
   .fwdSend 0, .fwdSend 0, .appTake, .appDelta, .appTake, .appDelta, .workerRetire 0,
   .seedDelta]

def stNeg : St := (runActs envRace cfgOne (initSt cfgOne) traceNeg).getD (initSt cfgOne)

def stCrash : St := (runActs envRace cfgOne (initSt cfgOne) traceCrash).getD (initSt cfgOne)

def stHang : St := (runActs envRace cfgOne (initSt cfgOne) traceHang).getD (initSt cfgOne)

def envRun : Env :=
  ⟨fun u =>
    if u = "http://h" then some ["/about", "https://tw.com/", "/img.png", "a_b:c", "/about"]
    else if u = "http://h/about" then some []
    else none⟩

/-- A complete run of `envRun` under `cfgOne`, ending with `Run` returned. -/
def traceRun : List Act :=
  [.seedSend, .seedDelta, .appTake, .appPush, .workerTake 0, .workerN 0, .workerResult 0,
   .fwdSend 0, .fwdSend 0, .appTake, .fwdSend 0, .appPush, .appTake, .appDelta,
   .appTake, .appDelta, .workerRetire 0, .workerTake 0, .workerResult 0, .workerRetire 0,
   .workerExit 0, .mainCloseFilter, .appExit, .mainCloseResult, .builderTake, .builderTake,
   .builderDone, .mainReturn]

def stRun : St := (runActs envRun cfgOne (initSt cfgOne) traceRun).getD (initSt cfgOne)

/-- Canonical keys pending in the appender's hand (a site it is about to
push to `workQueue`). -/
def appKeys : AppStatus → List String
  | .sendWork w => [siteKey w.url]
  | _ => []

/-- All canonical keys that have been fetched or are on their way to a
fetch: the fetch-attempt history, the admitted sites sitting in
`workQueue`, and the site the appender is currently pushing. -/
def trackedKeys (s : St) : List String :=
  s.fetchLog ++ (s.workQ.map (fun w => siteKey w.url) ++ appKeys s.appSt)

/-- The at-most-once-fetch invariant: tracked keys are pairwise distinct
and all recorded in `visitedSites`. -/
def KeyInv (s : St) : Prop :=
  (trackedKeys s).Nodup ∧ ∀ k ∈ trackedKeys s, k ∈ s.visited

/-- The sitemap lines a worker is still holding (its scrape succeeded but
the result has not yet entered `resultQueue`). -/
def heldLines : WStatus → List String
  | .sendN site ch => resultLines (site, ch)
  | .sendResult site ch => resultLines (site, ch)
  | _ => []

/-- The sitemap lines held across a worker pool. -/
def oblW (l : List WStatus) : Multiset String :=
  (l.map (fun w => (↑(heldLines w) : Multiset String))).sum

/-- All sitemap lines owed to the output: already written, queued in
`resultQueue`, or held by a worker. -/
def obl (s : St) : Multiset String :=
  (↑s.output : Multiset String) + ↑((s.resultQ.map resultLines).flatten) + oblW s.workers

/-- The lines of every successful scrape so far. -/
def scrapeLines (s : St) : Multiset String :=
  ↑((s.scrapeLog.map resultLines).flatten)

/-- The output-exactness invariant bundle: the owed lines are exactly the
lines of the successful scrapes; workers stay exited once `Run` passes
`wg.Wait()`; `resultQueue` is closed only after that; once the builder is
done the result queue is closed and drained; a returned `Run` implies a
finished builder; and every logged scrape really is a successful fetch
with its `getNewSites` children. -/
def PipeInv (env : Env) (s : St) : Prop :=
  obl s = scrapeLines s ∧
  (s.mainSt ≠ .waitWorkers → ∀ w ∈ s.workers, w = .exited) ∧
  (s.resultClosed = true → s.mainSt ≠ .waitWorkers ∧ s.mainSt ≠ .closeResult) ∧
  ((s.builderSt = .doneReady ∨ s.builderSt = .finished) →
    s.resultClosed = true ∧ s.resultQ = []) ∧
  (s.mainSt = .returned → s.builderSt = .finished) ∧
  (∀ r ∈ s.scrapeLog, ∃ links, env.fetch r.1.url.str = some links ∧ r.2 = getNewSites r.1 links)

/-! ## Claim theorems: functional claims -/

/-- **C7.** For every input string, `strToURL` (the spec's `parseURL`)
accepts absolute and relative forms and rejects any non-empty scheme other
than `http`/`https` with the `InvalidURLScheme` error; on success it
returns the parsed URL with the fragment stripped, a single trailing slash
removed from the path, and a `"."` path normalized to the empty path
(hence the root path `"/"` also becomes empty); in particular
`parseURL("/web#home")` yields path `/web`, `parseURL("/home/")` yields
path `/home`, and `parseURL("ftp://x")` fails with the scheme error. -/
theorem claim_C7_parseURL_normalization :
    (∀ s u, urlParse s = some u →
      u.scheme ≠ "" → u.scheme ≠ "http" → u.scheme ≠ "https" →
      strToURL s = .error .invalidURLScheme) ∧
    (∀ s u, urlParse s = some u →
      (u.scheme = "" ∨ u.scheme = "http" ∨ u.scheme = "https") →
      strToURL s =
        .ok { u with fragment := "",
                     path := if goTrimSuf u.path "/" = "." then "" else goTrimSuf u.path "/" }) ∧
    strToURL "/web#home" = .ok ⟨"", "", "", "/web", "", ""⟩ ∧
    strToURL "/home/" = .ok ⟨"", "", "", "/home", "", ""⟩ ∧
    strToURL "ftp://x" = .error .invalidURLScheme ∧
    strToURL "https://example.com" = .ok ⟨"https", "", "example.com", "", "", ""⟩ ∧
    strToURL "/web" = .ok ⟨"", "", "", "/web", "", ""⟩ := by
  refine ⟨?_, ?_, by decide, by decide, by decide, by decide, by decide⟩
  · intro s u hu h1 h2 h3
    simp only [strToURL, hu]
    rw [if_pos ⟨h1, h2, h3⟩]
  · intro s u hu hv
    simp only [strToURL, hu]
    rw [if_neg]
    rcases hv with h | h | h <;> simp [h]

/-- Witness for C7: the universal scheme-rejection part applied at the
concrete input `"ftp://x"`. -/
theorem claim_C7_parseURL_normalization_witness :
    strToURL "ftp://x" = .error .invalidURLScheme :=
  claim_C7_parseURL_normalization.1 "ftp://x" ⟨"ftp", "", "x", "", "", ""⟩
    (by decide) (by decide) (by decide) (by decide)

theorem cutAt_not_mem {c : Char} {l : List Char} (h : c ∉ l) : cutAt c l = (l, []) := by
  induction l with
  | nil => rfl
  | cons d rest ih =>
    rw [List.mem_cons, not_or] at h
    simp [cutAt, Ne.symm h.1, ih h.2]

theorem takeSlash (a : List Char) (ha : '/' ∉ a) (b : List Char) :
    (a ++ '/' :: b).takeWhile (· ≠ '/') = a ∧ (a ++ '/' :: b).dropWhile (· ≠ '/') = '/' :: b := by
  induction a with
  | nil => simp [List.takeWhile_cons, List.dropWhile_cons]
  | cons x xs ih =>
    rw [List.mem_cons, not_or] at ha
    have h2 := ih ha.2
    simp only [ne_eq, decide_not] at h2
    simp [List.takeWhile_cons, List.dropWhile_cons, Ne.symm ha.1, h2.1, h2.2]

theorem isPre_refl_append (a b : List Char) : a.isPrefixOf (a ++ b) = true := by
  induction a with
  | nil => cases b <;> rfl
  | cons x xs ih => simp [List.isPrefixOf, ih]

theorem goTrimPre_append (a b : String) : goTrimPre (a ++ b) a = b := by
  simp only [goTrimPre, String.data_append]
  rw [if_pos (isPre_refl_append a.data b.data), List.drop_left]

theorem getScheme_http (rest : List Char) :
    getScheme ('h' :: 't' :: 't' :: 'p' :: ':' :: rest) = some (['h', 't', 't', 'p'], rest) := rfl

theorem getScheme_https (rest : List Char) :
    getScheme ('h' :: 't' :: 't' :: 'p' :: 's' :: ':' :: rest) =
      some (['h', 't', 't', 'p', 's'], rest) := rfl

theorem urlParse_http (hs p : String)
    (hh1 : '#' ∉ hs.data) (hh2 : '?' ∉ hs.data) (hh3 : '/' ∉ hs.data)
    (hp1 : '#' ∉ p.data) (hp2 : '?' ∉ p.data) :
    urlParse ("http://" ++ hs ++ "/" ++ p) = some ⟨"http", "", hs, ⟨'/' :: p.data⟩, "", ""⟩ := by
  have hd : ("http://" ++ hs ++ "/" ++ p).data
      = 'h' :: 't' :: 't' :: 'p' :: ':' :: '/' :: '/' :: (hs.data ++ '/' :: p.data) := by
    simp [String.data_append]
  have hne : ("http://" ++ hs ++ "/" ++ p) ≠ "*" := by
    intro e
    have h2 := congrArg String.data e
    rw [hd] at h2
    simp at h2
  have hhash : '#' ∉ 'h' :: 't' :: 't' :: 'p' :: ':' :: '/' :: '/' :: (hs.data ++ '/' :: p.data) := by
    simp [hh1, hp1]
  have hqm : '?' ∉ ('/' : Char) :: '/' :: (hs.data ++ '/' :: p.data) := by
    simp [hh2, hp2]
  have htk := takeSlash hs.data hh3 p.data
  simp only [ne_eq, decide_not] at htk
  simp only [urlParse, if_neg hne, hd, cutAt_not_mem hhash, getScheme_http,
    cutAt_not_mem hqm]
  simp [List.isPrefixOf, htk.1, htk.2]

theorem urlParse_https (hs p : String)
    (hh1 : '#' ∉ hs.data) (hh2 : '?' ∉ hs.data) (hh3 : '/' ∉ hs.data)
    (hp1 : '#' ∉ p.data) (hp2 : '?' ∉ p.data) :
    urlParse ("https://" ++ hs ++ "/" ++ p) = some ⟨"https", "", hs, ⟨'/' :: p.data⟩, "", ""⟩ := by
  have hd : ("https://" ++ hs ++ "/" ++ p).data
      = 'h' :: 't' :: 't' :: 'p' :: 's' :: ':' :: '/' :: '/' :: (hs.data ++ '/' :: p.data) := by
    simp [String.data_append]
  have hne : ("https://" ++ hs ++ "/" ++ p) ≠ "*" := by
    intro e
    have h2 := congrArg String.data e
    rw [hd] at h2
    simp at h2
  have hhash : '#' ∉ 'h' :: 't' :: 't' :: 'p' :: 's' :: ':' :: '/' :: '/' ::
      (hs.data ++ '/' :: p.data) := by
    simp [hh1, hp1]
  have hqm : '?' ∉ ('/' : Char) :: '/' :: (hs.data ++ '/' :: p.data) := by
    simp [hh2, hp2]
  have htk := takeSlash hs.data hh3 p.data
  simp only [ne_eq, decide_not] at htk
  simp only [urlParse, if_neg hne, hd, cutAt_not_mem hhash, getScheme_https,
    cutAt_not_mem hqm]
  simp [List.isPrefixOf, htk.1, htk.2]

theorem strToURL_http (hs p : String)
    (hh1 : '#' ∉ hs.data) (hh2 : '?' ∉ hs.data) (hh3 : '/' ∉ hs.data)
    (hp1 : '#' ∉ p.data) (hp2 : '?' ∉ p.data) :
    strToURL ("http://" ++ hs ++ "/" ++ p) =
      .ok ⟨"http", "", hs,
        if goTrimSuf ⟨'/' :: p.data⟩ "/" = "." then "" else goTrimSuf ⟨'/' :: p.data⟩ "/",
        "", ""⟩ := by
  simp [strToURL, urlParse_http hs p hh1 hh2 hh3 hp1 hp2]

theorem strToURL_https (hs p : String)
    (hh1 : '#' ∉ hs.data) (hh2 : '?' ∉ hs.data) (hh3 : '/' ∉ hs.data)
    (hp1 : '#' ∉ p.data) (hp2 : '?' ∉ p.data) :
    strToURL ("https://" ++ hs ++ "/" ++ p) =
      .ok ⟨"https", "", hs,
        if goTrimSuf ⟨'/' :: p.data⟩ "/" = "." then "" else goTrimSuf ⟨'/' :: p.data⟩ "/",
        "", ""⟩ := by
  simp [strToURL, urlParse_https hs p hh1 hh2 hh3 hp1 hp2]

theorem key_http_https (X : String) :
    goTrimPre ("http:" ++ X) "http" = goTrimPre ("https:" ++ X) "https" := by
  have a1 : goTrimPre ("http:" ++ X) "http" = ":" ++ X := goTrimPre_append "http" (":" ++ X)
  have a2 : goTrimPre ("https:" ++ X) "https" = ":" ++ X := goTrimPre_append "https" (":" ++ X)
  rw [a1, a2]

theorem siteKey_scheme_pair (hs P : String) :
    siteKey ⟨"http", "", hs, P, "", ""⟩ = siteKey ⟨"https", "", hs, P, "", ""⟩ := by
  by_cases h1 : hs = "" <;> by_cases h2 : P = "" <;>
    by_cases h3 : ['/'].isPrefixOf P.data = true <;>
      simp only [siteKey, GoURL.str, h1, h2, h3] <;>
        simp [String.append_assoc] <;>
          first
          | decide
          | exact key_http_https _

/-- **C8.** For every host `h` and path `p` (hosts contain no `/`, `#` or
`?`; paths no `#` or `?`), the canonical key of the parsed URL
`http://h/p` equals the canonical key of the parsed URL `https://h/p`:
the key is the URL's string form with the leading scheme label trimmed
(`strings.TrimPrefix(URL.String(), URL.Scheme)` in `workQueueAppender`),
so the http and https variants of one host and path collapse to a single
`visitedSites` entry. -/
theorem claim_C8_canonical_key_scheme_insensitive (hs p : String)
    (hh1 : '#' ∉ hs.data) (hh2 : '?' ∉ hs.data) (hh3 : '/' ∉ hs.data)
    (hp1 : '#' ∉ p.data) (hp2 : '?' ∉ p.data) :
    ∃ u1 u2, strToURL ("http://" ++ hs ++ "/" ++ p) = .ok u1 ∧
      strToURL ("https://" ++ hs ++ "/" ++ p) = .ok u2 ∧
      siteKey u1 = siteKey u2 :=
  ⟨_, _, strToURL_http hs p hh1 hh2 hh3 hp1 hp2, strToURL_https hs p hh1 hh2 hh3 hp1 hp2,
    siteKey_scheme_pair hs _⟩

/-- Witness for C8: host `example.com` and path `p`. -/
theorem claim_C8_canonical_key_scheme_insensitive_witness :
    ∃ u1 u2, strToURL "http://example.com/p" = .ok u1 ∧
      strToURL "https://example.com/p" = .ok u2 ∧
      siteKey u1 = siteKey u2 :=
  claim_C8_canonical_key_scheme_insensitive "example.com" "p"
    (by decide) (by decide) (by decide) (by decide) (by decide)

/-- **C3.** Each candidate consumed by `workQueueAppender` meets exactly
one of three fates: an external or media site moves the appender to its
single `-1` delta send with the site discarded and `visitedSites`
unchanged; a site whose canonical key is already in `visitedSites`
likewise; otherwise the key is inserted into `visitedSites` and the
appender moves to the `workQueue` send of the site unchanged, with no
delta pending. -/
theorem claim_C3_filter_trichotomy (env : Env) (cfg : Cfg) (s : St) (w : WebSite)
    (rest : List WebSite) (hcr : s.crashed = false) (happ : s.appSt = .waiting)
    (hq : s.filterQ = w :: rest) :
    ((isExternalURL w ∨ isMediaURL w.url) →
      applyAct env cfg s .appTake =
        some { s with filterQ := rest, appSt := .sendRetireDelta }) ∧
    (¬ (isExternalURL w ∨ isMediaURL w.url) → s.visited.contains (siteKey w.url) →
      applyAct env cfg s .appTake =
        some { s with filterQ := rest, appSt := .sendRetireDelta }) ∧
    (¬ (isExternalURL w ∨ isMediaURL w.url) → ¬ s.visited.contains (siteKey w.url) →
      applyAct env cfg s .appTake =
        some { s with filterQ := rest, appSt := .sendWork w,
                      visited := siteKey w.url :: s.visited }) := by
  refine ⟨?_, ?_, ?_⟩ <;> intro h1 <;> try intro h2
  all_goals
    simp only [applyAct, hcr, happ, hq, appClassify]
    simp_all

/-- Witness for C3: the external child `https://x` of parent `http://h`
is classified as a retirement. -/
theorem claim_C3_filter_trichotomy_witness :
    applyAct envRun cfgOne
      { initSt cfgOne with
          filterQ := [⟨⟨"https", "", "x", "", "", ""⟩, some ⟨"http", "", "h", "", "", ""⟩⟩] }
      .appTake =
    some { initSt cfgOne with
            filterQ := ([] : List WebSite), appSt := .sendRetireDelta } :=
  (claim_C3_filter_trichotomy envRun cfgOne _ _ _ rfl rfl rfl).1 (by decide)

theorem getNewSitesAux_eq (parent : GoURL) (links : List String) :
    ∀ seen, getNewSitesAux parent seen links =
      (dedupFirstBy seen (links.filterMap (resolveLink parent))).map
        (fun u => ⟨u, some parent⟩) := by
  induction links with
  | nil => intro seen; rfl
  | cons link rest ih =>
    intro seen
    simp only [getNewSitesAux, List.filterMap_cons]
    cases h : resolveLink parent link with
    | none => simp only [h]; exact ih seen
    | some u =>
      simp only [h]
      by_cases hc : u.str ∈ seen
      · simp [dedupFirstBy, hc, ih seen]
      · simp [dedupFirstBy, hc, ih (u.str :: seen)]

/-- **C9.** For every page and extracted href list, the child list built
by `getNewSites` is exactly the distinct resolved URLs in order of first
occurrence (resolution inheriting the page's scheme and host for relative
hrefs, one `webSite` per distinct resolved URL string), every child's
`Parent` is the page's URL, and an href that fails to parse is dropped
(`resolveLink` yields `none`, so it is absent from the `filterMap`) —
`getNewSites` is pure, so no site is retired and no delta is emitted for
such an href. -/
theorem claim_C9_children_distinct_resolved (s : WebSite) (links : List String) :
    getNewSites s links =
      (dedupFirstBy [] (links.filterMap (resolveLink s.url))).map
        (fun u => ⟨u, some s.url⟩) ∧
    ∀ w ∈ getNewSites s links, w.parent = some s.url := by
  refine ⟨getNewSitesAux_eq s.url links [], ?_⟩
  intro w hw
  have h2 : w ∈ (dedupFirstBy [] (links.filterMap (resolveLink s.url))).map
      (fun u => (⟨u, some s.url⟩ : WebSite)) := by
    rw [← getNewSitesAux_eq s.url links []]
    exact hw
  obtain ⟨u, _, h3⟩ := List.mem_map.1 h2
  rw [← h3]

/-- **C6.** `Run` rejects an invalid configuration with the matching
distinct error before the pipeline exists — `crawlerRun` returns the
error with no pipeline state, so no goroutine is started and no network
activity occurs: the seed-URL errors (invalid URL, invalid scheme,
non-absolute URL) from `strToAbsoluteURL`, `ErrInvalidNumWorkers` for
worker count ≤ 0, `ErrInvalidHTTPClientTimeout` for a negative timeout,
and the file-creation error for an unwritable output destination (checked
only when no writer is injected, after defaulting the empty path to
standard output); a configuration passing all checks proceeds to crawl
from `initSt`. -/
theorem claim_C6_validation_distinct_errors (createOK : String → Bool) (c : CrawlerCfg) :
    (∀ e, strToAbsoluteURL c.seedURL = .error e →
      crawlerRun createOK c = .error e.toCfgErr) ∧
    (∀ u, strToAbsoluteURL c.seedURL = .ok u → c.numWorkers ≤ 0 →
      crawlerRun createOK c = .error .invalidNumWorkers) ∧
    (∀ u, strToAbsoluteURL c.seedURL = .ok u → 0 < c.numWorkers →
      c.httpClientTimeoutSec < 0 →
      crawlerRun createOK c = .error .invalidHTTPClientTimeout) ∧
    (∀ u, strToAbsoluteURL c.seedURL = .ok u → 0 < c.numWorkers →
      0 ≤ c.httpClientTimeoutSec → c.hasWriter = false →
      createOK (if c.siteMapOutputFile = "" then "/dev/stdout" else c.siteMapOutputFile)
        = false →
      crawlerRun createOK c = .error .createFileFailed) ∧
    (∀ u, strToAbsoluteURL c.seedURL = .ok u → 0 < c.numWorkers →
      0 ≤ c.httpClientTimeoutSec →
      (c.hasWriter = true ∨
        createOK (if c.siteMapOutputFile = "" then "/dev/stdout" else c.siteMapOutputFile)
          = true) →
      crawlerRun createOK c = .ok (initSt ⟨c.numWorkers.toNat, u⟩)) := by
  refine ⟨?_, ?_, ?_, ?_, ?_⟩
  · intro e he
    simp [crawlerRun, validate, he]
  · intro u hu hw
    simp [crawlerRun, validate, hu, hw]
  · intro u hu hw ht
    simp [crawlerRun, validate, hu, not_le.2 hw, ht]
  · intro u hu hw ht hnw hcf
    by_cases hf : c.siteMapOutputFile = "" <;>
      simp [crawlerRun, validate, hu, not_le.2 hw, not_lt.2 ht, hnw, hf, hcf] <;>
        simp_all
  · intro u hu hw ht hok
    by_cases hh : c.hasWriter = true <;> by_cases hf : c.siteMapOutputFile = "" <;>
      rcases hok with hok | hok <;>
        simp_all [crawlerRun, validate, not_le.2 hw, not_lt.2 ht]

/-- Witness for C6: worker count `0` with a valid seed is rejected with
`ErrInvalidNumWorkers`. -/
theorem claim_C6_validation_distinct_errors_witness :
    crawlerRun (fun _ => true) ⟨"https://example.com", 0, 2, "", false⟩
      = .error .invalidNumWorkers :=
  (claim_C6_validation_distinct_errors (fun _ => true)
      ⟨"https://example.com", 0, 2, "", false⟩).2.1
    ⟨"https", "", "example.com", "", "", ""⟩ (by decide) (by decide)

/-- **C1 (code bug).** The termination-counter contract fails on the
code: the seed goroutine submits the seed to the filter stage (line 74)
before its `+1` delta send (line 75), so in the legal schedule `traceNeg`
every retirement is received first and the running total reaches `-1`
while the work queue is already closed (a delta applied after closure);
one step later (`traceCrash`) the late `+1` makes the total transition to
zero a second time and `workQueueDoneChecker` closes the already-closed
`workQueue`, a Go runtime panic. -/
theorem claim_C1_counter_contract_violated :
    (∃ s, Reach envRace cfgOne s ∧ s.counter < 0 ∧ s.workClosed = true) ∧
    (∃ s, Reach envRace cfgOne s ∧ s.crashed = true) :=
  ⟨⟨stNeg, ⟨traceNeg, rfl⟩, by decide, by decide⟩,
   ⟨stCrash, ⟨traceCrash, rfl⟩, by decide⟩⟩

/-- **C2 (code bug).** Termination fails on the code for a valid
configuration whose reachable internal-page graph is finite (`envRace`
has a single internal page and two external leaves): under the legal
schedule `traceHang` the process panics (double close of `workQueue`), so
`Run` never returns. -/
theorem claim_C2_run_may_never_return :
    ∃ s, Reach envRace cfgOne s ∧ s.crashed = true ∧ s.mainSt ≠ .returned :=
  ⟨stHang, ⟨traceHang, rfl⟩, by decide, by decide⟩


/-! ## The at-most-once-fetch invariant (C4) -/

@[simp] theorem applyDelta_fetchLog (s : St) (d : Int) :
    (applyDelta s d).fetchLog = s.fetchLog := by
  simp only [applyDelta]; split <;> (try split) <;> rfl

@[simp] theorem applyDelta_workQ (s : St) (d : Int) : (applyDelta s d).workQ = s.workQ := by
  simp only [applyDelta]; split <;> (try split) <;> rfl

@[simp] theorem applyDelta_appSt (s : St) (d : Int) : (applyDelta s d).appSt = s.appSt := by
  simp only [applyDelta]; split <;> (try split) <;> rfl

@[simp] theorem applyDelta_visited (s : St) (d : Int) : (applyDelta s d).visited = s.visited := by
  simp only [applyDelta]; split <;> (try split) <;> rfl

@[simp] theorem applyDelta_output (s : St) (d : Int) : (applyDelta s d).output = s.output := by
  simp only [applyDelta]; split <;> (try split) <;> rfl

@[simp] theorem applyDelta_resultQ (s : St) (d : Int) : (applyDelta s d).resultQ = s.resultQ := by
  simp only [applyDelta]; split <;> (try split) <;> rfl

@[simp] theorem applyDelta_workers (s : St) (d : Int) : (applyDelta s d).workers = s.workers := by
  simp only [applyDelta]; split <;> (try split) <;> rfl

@[simp] theorem applyDelta_scrapeLog (s : St) (d : Int) :
    (applyDelta s d).scrapeLog = s.scrapeLog := by
  simp only [applyDelta]; split <;> (try split) <;> rfl

@[simp] theorem applyDelta_mainSt (s : St) (d : Int) : (applyDelta s d).mainSt = s.mainSt := by
  simp only [applyDelta]; split <;> (try split) <;> rfl

@[simp] theorem applyDelta_builderSt (s : St) (d : Int) :
    (applyDelta s d).builderSt = s.builderSt := by
  simp only [applyDelta]; split <;> (try split) <;> rfl

@[simp] theorem applyDelta_resultClosed (s : St) (d : Int) :
    (applyDelta s d).resultClosed = s.resultClosed := by
  simp only [applyDelta]; split <;> (try split) <;> rfl

theorem keyInv_applyDelta {t : St} (d : Int) (h : KeyInv t) : KeyInv (applyDelta t d) := by
  obtain ⟨hn, hm⟩ := h
  constructor
  · simpa only [trackedKeys, applyDelta_fetchLog, applyDelta_workQ, applyDelta_appSt] using hn
  · simpa only [trackedKeys, applyDelta_fetchLog, applyDelta_workQ, applyDelta_appSt,
      applyDelta_visited] using hm

theorem keyInv_init (cfg : Cfg) : KeyInv (initSt cfg) := by
  constructor <;> simp [KeyInv, trackedKeys, initSt, appKeys]

theorem keyInv_step (env : Env) (cfg : Cfg) {s s' : St} {a : Act}
    (h : applyAct env cfg s a = some s') (hi : KeyInv s) : KeyInv s' := by
  obtain ⟨hn, hm⟩ := hi
  cases a with
  | seedSend =>
    simp only [applyAct] at h
    split at h
    · exact Option.noConfusion h
    · split at h
      · split at h
        · injection h with h2; subst h2; exact ⟨hn, hm⟩
        · split at h
          · injection h with h2; subst h2; exact ⟨hn, hm⟩
          · exact Option.noConfusion h
      · exact Option.noConfusion h
  | seedDelta =>
    simp only [applyAct] at h
    split at h
    · exact Option.noConfusion h
    · split at h
      · injection h with h2; subst h2; exact keyInv_applyDelta _ ⟨hn, hm⟩
      · exact Option.noConfusion h
  | appTake =>
    simp only [applyAct] at h
    split at h
    · exact Option.noConfusion h
    · split at h
      case _ w rest heq1 heq2 =>
        rcases hcl : appClassify s.visited w with ⟨st', visited'⟩
        rw [hcl] at h
        injection h with h2; subst h2
        simp only [appClassify] at hcl
        split at hcl
        · injection hcl with e1 e2; subst e1; subst e2
          refine ⟨?_, ?_⟩ <;>
            simp only [trackedKeys, appKeys, heq1, List.append_nil] at hn hm ⊢ <;>
              assumption
        · split at hcl
          · injection hcl with e1 e2; subst e1; subst e2
            refine ⟨?_, ?_⟩ <;>
              simp only [trackedKeys, appKeys, heq1, List.append_nil] at hn hm ⊢ <;>
                assumption
          · injection hcl with e1 e2; subst e1; subst e2
            case _ hnotext hnotvis =>
            have hkey : siteKey w.url ∉ s.visited := by
              intro hk
              exact hnotvis (by simpa using hk)
            simp only [trackedKeys, appKeys, heq1, List.append_nil] at hn hm
            simp only [KeyInv, trackedKeys, appKeys]
            constructor
            · rw [← List.append_assoc]
              rw [List.nodup_append]
              refine ⟨hn, List.nodup_singleton _, ?_⟩
              intro k hk hk2
              rw [List.mem_singleton] at hk2
              subst hk2
              exact hkey (hm _ hk)
            · intro k hk
              rw [← List.append_assoc, List.mem_append] at hk
              rcases hk with hk | hk
              · exact List.mem_cons_of_mem _ (hm k hk)
              · rw [List.mem_singleton] at hk
                subst hk
                exact List.mem_cons_self _ _
      · exact Option.noConfusion h
  | appDelta =>
    simp only [applyAct] at h
    split at h
    · exact Option.noConfusion h
    · split at h
      case _ heq =>
        injection h with h2; subst h2
        apply keyInv_applyDelta
        refine ⟨?_, ?_⟩ <;>
          simp only [trackedKeys, appKeys, heq] at hn hm ⊢ <;> assumption
      · exact Option.noConfusion h
  | appPush =>
    simp only [applyAct] at h
    split at h
    · exact Option.noConfusion h
    · split at h
      case _ site heq =>
        split at h
        · injection h with h2; subst h2; exact ⟨hn, hm⟩
        · split at h
          · injection h with h2; subst h2
            refine ⟨?_, ?_⟩ <;>
              simp only [trackedKeys, appKeys, heq, List.map_append, List.map_cons,
                List.map_nil, List.append_nil, List.append_assoc, List.singleton_append,
                List.nil_append] at hn hm ⊢ <;>
                assumption
          · exact Option.noConfusion h
      · exact Option.noConfusion h
  | appExit =>
    simp only [applyAct] at h
    split at h
    · exact Option.noConfusion h
    · split at h
      case _ heq1 heq2 heq3 =>
        injection h with h2; subst h2
        refine ⟨?_, ?_⟩ <;>
          simp only [trackedKeys, appKeys, heq1] at hn hm ⊢ <;> assumption
      · exact Option.noConfusion h
  | workerTake i =>
    simp only [applyAct] at h
    split at h
    · exact Option.noConfusion h
    · split at h
      case _ site rest heqw heqq =>
        split at h <;>
        · injection h with h2; subst h2
          refine ⟨?_, ?_⟩ <;>
            simp only [trackedKeys, heqq, List.map_cons, List.append_assoc,
              List.singleton_append, List.cons_append, List.nil_append] at hn hm ⊢ <;>
              assumption
      · exact Option.noConfusion h
  | workerN i =>
    simp only [applyAct] at h
    split at h
    · exact Option.noConfusion h
    · split at h
      · injection h with h2; subst h2; exact keyInv_applyDelta _ ⟨hn, hm⟩
      · exact Option.noConfusion h
  | workerResult i =>
    simp only [applyAct] at h
    split at h
    · exact Option.noConfusion h
    · split at h
      · split at h
        · injection h with h2; subst h2; exact ⟨hn, hm⟩
        · split at h
          · injection h with h2; subst h2; exact ⟨hn, hm⟩
          · exact Option.noConfusion h
      · exact Option.noConfusion h
  | workerRetire i =>
    simp only [applyAct] at h
    split at h
    · exact Option.noConfusion h
    · split at h
      · injection h with h2; subst h2; exact keyInv_applyDelta _ ⟨hn, hm⟩
      · exact Option.noConfusion h
  | workerExit i =>
    simp only [applyAct] at h
    split at h
    · exact Option.noConfusion h
    · split at h
      · injection h with h2; subst h2; exact ⟨hn, hm⟩
      · exact Option.noConfusion h
  | fwdSend j =>
    simp only [applyAct] at h
    split at h
    · exact Option.noConfusion h
    · split at h
      · split at h
        · injection h with h2; subst h2; exact ⟨hn, hm⟩
        · split at h
          · injection h with h2; subst h2; exact ⟨hn, hm⟩
          · exact Option.noConfusion h
      · exact Option.noConfusion h
  | builderTake =>
    simp only [applyAct] at h
    split at h
    · exact Option.noConfusion h
    · split at h
      · injection h with h2; subst h2; exact ⟨hn, hm⟩
      · exact Option.noConfusion h
  | builderDone =>
    simp only [applyAct] at h
    split at h
    · exact Option.noConfusion h
    · split at h
      · injection h with h2; subst h2; exact ⟨hn, hm⟩
      · exact Option.noConfusion h
  | mainCloseFilter =>
    simp only [applyAct] at h
    split at h
    · exact Option.noConfusion h
    · split at h
      · split at h
        · injection h with h2; subst h2; exact ⟨hn, hm⟩
        · exact Option.noConfusion h
      · exact Option.noConfusion h
  | mainCloseResult =>
    simp only [applyAct] at h
    split at h
    · exact Option.noConfusion h
    · split at h
      · injection h with h2; subst h2; exact ⟨hn, hm⟩
      · exact Option.noConfusion h
  | mainReturn =>
    simp only [applyAct] at h
    split at h
    · exact Option.noConfusion h
    · split at h
      · injection h with h2; subst h2; exact ⟨hn, hm⟩
      · exact Option.noConfusion h

theorem keyInv_run (env : Env) (cfg : Cfg) :
    ∀ acts s, runActs env cfg (initSt cfg) acts = some s → KeyInv s := by
  have gen : ∀ acts t s, KeyInv t → runActs env cfg t acts = some s → KeyInv s := by
    intro acts
    induction acts with
    | nil =>
      intro t s ht h
      injection h with h2
      subst h2
      exact ht
    | cons a rest ih =>
      intro t s ht h
      simp only [runActs] at h
      cases ha : applyAct env cfg t a with
      | none => rw [ha] at h; exact Option.noConfusion h
      | some t' => rw [ha] at h; exact ih t' s (keyInv_step env cfg ha ht) h
  intro acts s h
  exact gen acts (initSt cfg) s (keyInv_init cfg) h

/-- **C4.** Across a full run, for every canonical key, the number of
fetch attempts issued by the worker pool (entries of the fetch-attempt
history `fetchLog`, recorded at the moment a worker dequeues a site) for
sites with that key is at most 1: `workQueueAppender` is the sole writer
of `visitedSites` and admits a key into `workQueue` only on its
first-seen transition. -/
theorem claim_C4_fetch_at_most_once (env : Env) (cfg : Cfg) (s : St)
    (h : Reach env cfg s) (k : String) : s.fetchLog.count k ≤ 1 := by
  obtain ⟨acts, hr⟩ := h
  have hk := (keyInv_run env cfg acts s hr).1
  simp only [trackedKeys] at hk
  exact List.nodup_iff_count_le_one.1 (List.Nodup.of_append_left hk) k

/-- Witness for C4: at the end of the complete run `traceRun`, the seed's
canonical key was fetched at most once. -/
theorem claim_C4_fetch_at_most_once_witness : stRun.fetchLog.count "://h" ≤ 1 :=
  claim_C4_fetch_at_most_once envRun cfgOne stRun ⟨traceRun, rfl⟩ "://h"

theorem http_ne_https_append (X : String) : ("http:" ++ X : String) ≠ "https:" ++ X := by
  intro e
  have d1 : ("http:" ++ X).data = 'h' :: 't' :: 't' :: 'p' :: ':' :: X.data := by
    simp [String.data_append]
  have d2 : ("https:" ++ X).data = 'h' :: 't' :: 't' :: 'p' :: 's' :: ':' :: X.data := by
    simp [String.data_append]
  have e2 := congrArg String.data e
  rw [d1, d2] at e2
  simp at e2

theorem str_scheme_distinct (hs P : String) :
    (⟨"http", "", hs, P, "", ""⟩ : GoURL).str ≠ (⟨"https", "", hs, P, "", ""⟩ : GoURL).str := by
  by_cases h1 : hs = "" <;> by_cases h2 : P = "" <;>
    by_cases h3 : ['/'].isPrefixOf P.data = true <;>
      simp only [GoURL.str, h1, h2, h3] <;>
        simp [String.append_assoc] <;>
          first
          | decide
          | exact http_ne_https_append _

/-- **C10.** Per-page deduplication in `getNewSites` is keyed by the full
resolved URL string including the scheme, unlike the global Visited Set
key: for every page and every host `h` and path `p` (hosts nonempty and
without `/`, `#`, `?`; paths without `#`, `?`), the two hrefs `http://h/p`
and `https://h/p` on that one page both survive per-page deduplication,
as distinct children of the page — their full resolved URL strings, the
per-page `urlSet` keys, differ — so `siteMapBuilder` emits two output
edges for them; yet they share one canonical (scheme-stripped) key, and
at most one of them is ever fetched: in every reachable state of every
pipeline, the number of fetch attempts whose canonical key is that shared
key is at most 1. -/
theorem claim_C10_per_page_dedup_scheme_sensitive (page : WebSite) (hs p : String)
    (hne : hs ≠ "")
    (hh1 : '#' ∉ hs.data) (hh2 : '?' ∉ hs.data) (hh3 : '/' ∉ hs.data)
    (hp1 : '#' ∉ p.data) (hp2 : '?' ∉ p.data) :
    ∃ u1 u2,
      strToURL ("http://" ++ hs ++ "/" ++ p) = .ok u1 ∧
      strToURL ("https://" ++ hs ++ "/" ++ p) = .ok u2 ∧
      getNewSites page ["http://" ++ hs ++ "/" ++ p, "https://" ++ hs ++ "/" ++ p]
        = [⟨u1, some page.url⟩, ⟨u2, some page.url⟩] ∧
      resultLines (page,
          getNewSites page ["http://" ++ hs ++ "/" ++ p, "https://" ++ hs ++ "/" ++ p])
        = [edgeLine page ⟨u1, some page.url⟩, edgeLine page ⟨u2, some page.url⟩] ∧
      u1.str ≠ u2.str ∧
      siteKey u1 = siteKey u2 ∧
      (∀ env cfg st, Reach env cfg st → st.fetchLog.count (siteKey u1) ≤ 1) := by
  have hu1 := strToURL_http hs p hh1 hh2 hh3 hp1 hp2
  have hu2 := strToURL_https hs p hh1 hh2 hh3 hp1 hp2
  have hstr := str_scheme_distinct hs
    (if goTrimSuf ⟨'/' :: p.data⟩ "/" = "." then "" else goTrimSuf ⟨'/' :: p.data⟩ "/")
  have r1 : resolveLink page.url ("http://" ++ hs ++ "/" ++ p)
      = some ⟨"http", "", hs,
          if goTrimSuf ⟨'/' :: p.data⟩ "/" = "." then "" else goTrimSuf ⟨'/' :: p.data⟩ "/",
          "", ""⟩ := by
    simp only [resolveLink, hu1]
    simp [isRelativeURL, hne]
  have r2 : resolveLink page.url ("https://" ++ hs ++ "/" ++ p)
      = some ⟨"https", "", hs,
          if goTrimSuf ⟨'/' :: p.data⟩ "/" = "." then "" else goTrimSuf ⟨'/' :: p.data⟩ "/",
          "", ""⟩ := by
    simp only [resolveLink, hu2]
    simp [isRelativeURL, hne]
  have hg : getNewSites page ["http://" ++ hs ++ "/" ++ p, "https://" ++ hs ++ "/" ++ p]
      = [⟨⟨"http", "", hs,
            if goTrimSuf ⟨'/' :: p.data⟩ "/" = "." then "" else goTrimSuf ⟨'/' :: p.data⟩ "/",
            "", ""⟩, some page.url⟩,
         ⟨⟨"https", "", hs,
            if goTrimSuf ⟨'/' :: p.data⟩ "/" = "." then "" else goTrimSuf ⟨'/' :: p.data⟩ "/",
            "", ""⟩, some page.url⟩] := by
    simp only [getNewSites, getNewSitesAux, r1, r2]
    simp [Ne.symm hstr]
  refine ⟨_, _, hu1, hu2, hg, ?_, hstr, siteKey_scheme_pair hs _, ?_⟩
  · rw [hg]
    rfl
  · intro env cfg st hreach
    obtain ⟨acts, hr⟩ := hreach
    have hk := (keyInv_run env cfg acts st hr).1
    simp only [trackedKeys] at hk
    exact List.nodup_iff_count_le_one.1 (List.Nodup.of_append_left hk) _

/-- Witness for C10: page `http://h`, host `h`, path `p`. -/
theorem claim_C10_per_page_dedup_scheme_sensitive_witness :
    ∃ u1 u2,
      strToURL "http://h/p" = .ok u1 ∧
      strToURL "https://h/p" = .ok u2 ∧
      getNewSites ⟨⟨"http", "", "h", "", "", ""⟩, none⟩ ["http://h/p", "https://h/p"]
        = [⟨u1, some ⟨"http", "", "h", "", "", ""⟩⟩,
           ⟨u2, some ⟨"http", "", "h", "", "", ""⟩⟩] ∧
      resultLines (⟨⟨"http", "", "h", "", "", ""⟩, none⟩,
          getNewSites ⟨⟨"http", "", "h", "", "", ""⟩, none⟩ ["http://h/p", "https://h/p"])
        = [edgeLine ⟨⟨"http", "", "h", "", "", ""⟩, none⟩
             ⟨u1, some ⟨"http", "", "h", "", "", ""⟩⟩,
           edgeLine ⟨⟨"http", "", "h", "", "", ""⟩, none⟩
             ⟨u2, some ⟨"http", "", "h", "", "", ""⟩⟩] ∧
      u1.str ≠ u2.str ∧
      siteKey u1 = siteKey u2 ∧
      (∀ env cfg st, Reach env cfg st → st.fetchLog.count (siteKey u1) ≤ 1) :=
  claim_C10_per_page_dedup_scheme_sensitive ⟨⟨"http", "", "h", "", "", ""⟩, none⟩ "h" "p"
    (by decide) (by decide) (by decide) (by decide) (by decide) (by decide)

/-! ## The output-exactness invariant (C5) -/

theorem sum_map_set {α β : Type} [AddCommMonoid β] (f : α → β) :
    ∀ (l : List α) (i : Nat) (a b : α), l.get? i = some a →
      ((l.set i b).map f).sum + f a = (l.map f).sum + f b := by
  intro l
  induction l with
  | nil => intro i a b hg; exact Option.noConfusion hg
  | cons x xs ih =>
    intro i a b hg
    cases i with
    | zero =>
      injection hg with hg2
      subst hg2
      simp only [List.set, List.map_cons, List.sum_cons]
      abel
    | succ n =>
      simp only [List.set, List.map_cons, List.sum_cons]
      rw [add_assoc, ih n a b hg, ← add_assoc]

theorem oblW_set (l : List WStatus) (i : Nat) (a b : WStatus) (hg : l.get? i = some a) :
    oblW (l.set i b) + ↑(heldLines a) = oblW l + ↑(heldLines b) := by
  have hs := sum_map_set (fun w => (↑(heldLines w) : Multiset String)) l i a b hg
  simpa only [oblW] using hs

theorem oblW_set_eq (l : List WStatus) (i : Nat) (a b : WStatus) (hg : l.get? i = some a)
    (hf : heldLines a = heldLines b) : oblW (l.set i b) = oblW l := by
  have hs := oblW_set l i a b hg
  rw [hf] at hs
  exact add_right_cancel hs

theorem pipeInv_applyDelta {env : Env} {t : St} (d : Int) (h : PipeInv env t) :
    PipeInv env (applyDelta t d) := by
  obtain ⟨h1, h2, h3, h4, h5, h6⟩ := h
  refine ⟨?_, ?_, ?_, ?_, ?_, ?_⟩
  · simpa only [obl, scrapeLines, applyDelta_output, applyDelta_resultQ, applyDelta_workers,
      applyDelta_scrapeLog] using h1
  · simpa only [applyDelta_mainSt, applyDelta_workers] using h2
  · simpa only [applyDelta_resultClosed, applyDelta_mainSt] using h3
  · simpa only [applyDelta_builderSt, applyDelta_resultClosed, applyDelta_resultQ] using h4
  · simpa only [applyDelta_mainSt, applyDelta_builderSt] using h5
  · simpa only [applyDelta_scrapeLog] using h6

theorem pipeInv_init (env : Env) (cfg : Cfg) : PipeInv env (initSt cfg) := by
  refine ⟨?_, ?_, ?_, ?_, ?_, ?_⟩ <;>
    simp [PipeInv, obl, oblW, scrapeLines, initSt, heldLines, List.map_replicate]

theorem pipeInv_step (env : Env) (cfg : Cfg) {s s' : St} {a : Act}
    (h : applyAct env cfg s a = some s') (hi : PipeInv env s) : PipeInv env s' := by
  cases a with
  | seedSend =>
    simp only [applyAct] at h
    split at h
    · exact Option.noConfusion h
    · split at h
      · split at h
        · injection h with h2; subst h2; exact hi
        · split at h
          · injection h with h2; subst h2; exact hi
          · exact Option.noConfusion h
      · exact Option.noConfusion h
  | seedDelta =>
    simp only [applyAct] at h
    split at h
    · exact Option.noConfusion h
    · split at h
      · injection h with h2; subst h2; exact pipeInv_applyDelta _ hi
      · exact Option.noConfusion h
  | appTake =>
    simp only [applyAct] at h
    split at h
    · exact Option.noConfusion h
    · split at h
      case _ w rest heq1 heq2 =>
        rcases hcl : appClassify s.visited w with ⟨st', visited'⟩
        rw [hcl] at h
        injection h with h2; subst h2
        exact hi
      · exact Option.noConfusion h
  | appDelta =>
    simp only [applyAct] at h
    split at h
    · exact Option.noConfusion h
    · split at h
      · injection h with h2; subst h2; exact pipeInv_applyDelta _ hi
      · exact Option.noConfusion h
  | appPush =>
    simp only [applyAct] at h
    split at h
    · exact Option.noConfusion h
    · split at h
      · split at h
        · injection h with h2; subst h2; exact hi
        · split at h
          · injection h with h2; subst h2; exact hi
          · exact Option.noConfusion h
      · exact Option.noConfusion h
  | appExit =>
    simp only [applyAct] at h
    split at h
    · exact Option.noConfusion h
    · split at h
      · injection h with h2; subst h2; exact hi
      · exact Option.noConfusion h
  | workerTake i =>
    simp only [applyAct] at h
    split at h
    · exact Option.noConfusion h
    · split at h
      case _ site rest heqw heqq =>
        split at h
        case _ heqf =>
          injection h with h2; subst h2
          obtain ⟨h1, h2, h3, h4, h5, h6⟩ := hi
          refine ⟨?_, ?_, h3, h4, h5, h6⟩
          · simp only [obl, scrapeLines] at h1 ⊢
            rw [oblW_set_eq s.workers i WStatus.idle WStatus.sendRetire heqw rfl]
            exact h1
          · intro hmain
            exact absurd (h2 hmain _ (List.get?_mem heqw)) (by simp)
        case _ links heqf =>
          injection h with h2; subst h2
          obtain ⟨h1, h2, h3, h4, h5, h6⟩ := hi
          refine ⟨?_, ?_, h3, h4, h5, ?_⟩
          · have hset := oblW_set s.workers i WStatus.idle
              (if (getNewSites site links).length ≠ 0
                then WStatus.sendN site (getNewSites site links)
                else WStatus.sendResult site (getNewSites site links)) heqw
            have hite : heldLines (if (getNewSites site links).length ≠ 0
                then WStatus.sendN site (getNewSites site links)
                else WStatus.sendResult site (getNewSites site links))
                = resultLines (site, getNewSites site links) := by
              split <;> rfl
            rw [hite, show heldLines WStatus.idle = [] from rfl,
              Multiset.coe_nil, add_zero] at hset
            simp only [obl, scrapeLines] at h1 ⊢
            rw [hset]
            simp only [List.map_append, List.flatten_append, List.map_cons, List.map_nil,
              List.flatten_cons, List.flatten_nil, List.append_nil, ← Multiset.coe_add]
            rw [← h1]
            abel
          · intro hmain
            exact absurd (h2 hmain _ (List.get?_mem heqw)) (by simp)
          · intro r hr
            rw [List.mem_append] at hr
            rcases hr with hr | hr
            · exact h6 r hr
            · rw [List.mem_singleton] at hr
              subst hr
              exact ⟨links, heqf, rfl⟩
      · exact Option.noConfusion h
  | workerN i =>
    simp only [applyAct] at h
    split at h
    · exact Option.noConfusion h
    · split at h
      case _ site ch heqw =>
        injection h with h2; subst h2
        obtain ⟨h1, h2, h3, h4, h5, h6⟩ := hi
        apply pipeInv_applyDelta
        refine ⟨?_, ?_, h3, h4, h5, h6⟩
        · simp only [obl, scrapeLines] at h1 ⊢
          rw [oblW_set_eq s.workers i (WStatus.sendN site ch) (WStatus.sendResult site ch)
            heqw rfl]
          exact h1
        · intro hmain
          exact absurd (h2 hmain _ (List.get?_mem heqw)) (by simp)
      · exact Option.noConfusion h
  | workerResult i =>
    simp only [applyAct] at h
    split at h
    · exact Option.noConfusion h
    · split at h
      case _ site ch heqw =>
        split at h
        · injection h with h2; subst h2; exact hi
        · split at h
          case _ hnc hcap =>
            injection h with h2; subst h2
            obtain ⟨h1, h2, h3, h4, h5, h6⟩ := hi
            refine ⟨?_, ?_, h3, ?_, h5, h6⟩
            · have hset := oblW_set s.workers i (WStatus.sendResult site ch)
                WStatus.sendRetire heqw
              rw [show heldLines (WStatus.sendResult site ch) = resultLines (site, ch) from rfl,
                show heldLines WStatus.sendRetire = [] from rfl,
                Multiset.coe_nil, add_zero] at hset
              simp only [obl, scrapeLines] at h1 ⊢
              simp only [List.map_append, List.flatten_append, List.map_cons, List.map_nil,
                List.flatten_cons, List.flatten_nil, List.append_nil, ← Multiset.coe_add]
              rw [← hset] at h1
              rw [← h1]
              abel
            · intro hmain
              exact absurd (h2 hmain _ (List.get?_mem heqw)) (by simp)
            · intro hb
              exact absurd (h4 hb).1 hnc
          · exact Option.noConfusion h
      · exact Option.noConfusion h
  | workerRetire i =>
    simp only [applyAct] at h
    split at h
    · exact Option.noConfusion h
    · split at h
      case _ heqw =>
        injection h with h2; subst h2
        obtain ⟨h1, h2, h3, h4, h5, h6⟩ := hi
        apply pipeInv_applyDelta
        refine ⟨?_, ?_, h3, h4, h5, h6⟩
        · simp only [obl, scrapeLines] at h1 ⊢
          rw [oblW_set_eq s.workers i WStatus.sendRetire WStatus.idle heqw rfl]
          exact h1
        · intro hmain
          exact absurd (h2 hmain _ (List.get?_mem heqw)) (by simp)
      · exact Option.noConfusion h
  | workerExit i =>
    simp only [applyAct] at h
    split at h
    · exact Option.noConfusion h
    · split at h
      case _ heqw heqc heqq =>
        injection h with h2; subst h2
        obtain ⟨h1, h2, h3, h4, h5, h6⟩ := hi
        refine ⟨?_, ?_, h3, h4, h5, h6⟩
        · simp only [obl, scrapeLines] at h1 ⊢
          rw [oblW_set_eq s.workers i WStatus.idle WStatus.exited heqw rfl]
          exact h1
        · intro hmain w hw
          rcases List.mem_or_eq_of_mem_set hw with hw | hw
          · exact h2 hmain w hw
          · exact hw
      · exact Option.noConfusion h
  | fwdSend j =>
    simp only [applyAct] at h
    split at h
    · exact Option.noConfusion h
    · split at h
      · split at h
        · injection h with h2; subst h2; exact hi
        · split at h
          · injection h with h2; subst h2; exact hi
          · exact Option.noConfusion h
      · exact Option.noConfusion h
  | builderTake =>
    simp only [applyAct] at h
    split at h
    · exact Option.noConfusion h
    · split at h
      case _ r rest heqb heqq =>
        injection h with h2; subst h2
        obtain ⟨h1, h2, h3, h4, h5, h6⟩ := hi
        refine ⟨?_, h2, h3, ?_, h5, h6⟩
        · simp only [obl, scrapeLines, heqq] at h1 ⊢
          simp only [List.map_cons, List.flatten_cons, ← Multiset.coe_add] at h1
          simp only [← Multiset.coe_add]
          rw [← h1]
          abel
        · intro hb
          simp [heqb] at hb
      · exact Option.noConfusion h
  | builderDone =>
    simp only [applyAct] at h
    split at h
    · exact Option.noConfusion h
    · split at h
      case _ heqb heqc heqq =>
        injection h with h2; subst h2
        obtain ⟨h1, h2, h3, h4, h5, h6⟩ := hi
        refine ⟨h1, h2, h3, ?_, ?_, h6⟩
        · intro _
          exact ⟨heqc, heqq⟩
        · intro hm
          exact absurd (h5 hm) (by rw [heqb]; simp)
      · exact Option.noConfusion h
  | mainCloseFilter =>
    simp only [applyAct] at h
    split at h
    · exact Option.noConfusion h
    · split at h
      case _ heqm =>
        split at h
        case _ hall =>
          injection h with h2; subst h2
          obtain ⟨h1, h2, h3, h4, h5, h6⟩ := hi
          refine ⟨h1, ?_, ?_, h4, ?_, h6⟩
          · intro _ w hw
            exact of_decide_eq_true (List.all_eq_true.1 hall w hw)
          · intro hrc
            exact absurd heqm (h3 hrc).1
          · intro hm
            simp at hm
        · exact Option.noConfusion h
      · exact Option.noConfusion h
  | mainCloseResult =>
    simp only [applyAct] at h
    split at h
    · exact Option.noConfusion h
    · split at h
      case _ heqm =>
        injection h with h2; subst h2
        obtain ⟨h1, h2, h3, h4, h5, h6⟩ := hi
        refine ⟨h1, ?_, ?_, ?_, ?_, h6⟩
        · intro _
          exact h2 (by rw [heqm]; simp)
        · intro _
          constructor <;> simp
        · intro hb
          exact ⟨rfl, (h4 hb).2⟩
        · intro hm
          simp at hm
      · exact Option.noConfusion h
  | mainReturn =>
    simp only [applyAct] at h
    split at h
    · exact Option.noConfusion h
    · split at h
      case _ heqm heqb =>
        injection h with h2; subst h2
        obtain ⟨h1, h2, h3, h4, h5, h6⟩ := hi
        refine ⟨h1, ?_, ?_, ?_, ?_, h6⟩
        · intro _
          exact h2 (by rw [heqm]; simp)
        · intro _
          constructor <;> simp
        · intro _
          exact h4 (Or.inl heqb)
        · intro _
          rfl
      · exact Option.noConfusion h

theorem pipeInv_run (env : Env) (cfg : Cfg) :
    ∀ acts s, runActs env cfg (initSt cfg) acts = some s → PipeInv env s := by
  have gen : ∀ acts t s, PipeInv env t → runActs env cfg t acts = some s → PipeInv env s := by
    intro acts
    induction acts with
    | nil =>
      intro t s ht h
      injection h with h2
      subst h2
      exact ht
    | cons a rest ih =>
      intro t s ht h
      simp only [runActs] at h
      cases ha : applyAct env cfg t a with
      | none => rw [ha] at h; exact Option.noConfusion h
      | some t' => rw [ha] at h; exact ih t' s (pipeInv_step env cfg ha ht) h
  intro acts s h
  exact gen acts (initSt cfg) s (pipeInv_init env cfg) h

/-- **C5.** In every completed run (`Run` returned), the output written to
the sink is, as a multiset (line order is unspecified), exactly the lines
`"<parentURLString> -> <childURLString>\n"` (`edgeLine`) of every
successful scrape: one line per (successfully fetched page, distinct
resolved child on that page), children including never-fetched external
and media targets; no header, footer or summary line is ever written
(`siteMapBuilder` writes only `resultLines`), and every logged scrape is
a real successful fetch whose children are exactly `getNewSites` of its
extracted href list — no edge fabricated, none lost. -/
theorem claim_C5_output_is_exact_edge_list (env : Env) (cfg : Cfg) (s : St)
    (h : Reach env cfg s) (hret : s.mainSt = .returned) :
    (↑s.output : Multiset String) = ↑((s.scrapeLog.map resultLines).flatten) ∧
    ∀ r ∈ s.scrapeLog, ∃ links,
      env.fetch r.1.url.str = some links ∧ r.2 = getNewSites r.1 links := by
  obtain ⟨acts, hr⟩ := h
  obtain ⟨h1, h2, h3, h4, h5, h6⟩ := pipeInv_run env cfg acts s hr
  refine ⟨?_, h6⟩
  have hq : s.resultQ = [] := (h4 (Or.inr (h5 hret))).2
  have hexit := h2 (by rw [hret]; simp)
  have hw : oblW s.workers = 0 := by
    simp only [oblW]
    apply List.sum_eq_zero
    intro x hx
    rw [List.mem_map] at hx
    obtain ⟨w, hwmem, hxe⟩ := hx
    rw [hexit w hwmem] at hxe
    rw [← hxe]
    rfl
  simp only [obl, scrapeLines, hq, hw] at h1
  simpa using h1

/-- Witness for C5: the completed run `traceRun` ends with the output
being exactly the edge lines of its two successful scrapes. -/
theorem claim_C5_output_is_exact_edge_list_witness :
    (↑stRun.output : Multiset String) = ↑((stRun.scrapeLog.map resultLines).flatten) :=
  (claim_C5_output_is_exact_edge_list envRun cfgOne stRun ⟨traceRun, rfl⟩ (by decide)).1
